import Mathlib

/-!
Shallow embedding of `src/Automated_File_Organizer/organizer.py` and proofs
about it.

Modelling conventions:
* A filesystem path is the list of its name components from the root
  (canonical, link-free absolute paths as produced by `pathlib`).
* The filesystem is a finite record of directory paths, regular-file paths
  and symlink paths.  `Path.exists` is membership in any of the three;
  `scandir` listing order is fixed as: directory children first, then file
  children, then link children, each in stored order (the OS order is
  unspecified, so any fixed order is a faithful choice).
* `Path.resolve` on these canonical link-free paths is the identity, so
  `is_same_file` is path equality.
* `source.rglob('*')` is a lazy generator: it lists a directory's entries
  when it reaches that directory, processes them, and only afterwards lists
  that directory's subdirectories (a second `scandir`) and recurses into
  them.  `visitDir` mirrors exactly this interleaving, which is observable
  because the loop body mutates the tree mid-walk in a live run.
* The only fallible operation modelled is `shutil.move` (the operation the
  three `except` arms of the source guard in practice); a move oracle
  `mf : FPath → FPath → Option String` says whether moving a given file to a
  given destination raises, and with which message (`str(e)`).  The three
  `except` arms of the source behave identically (append `(item, str(e))`
  and continue), so a single catch models them.
* The `while` loop of `resolve_conflict` is given the fuel
  `fsSize fs + 1`; the development proves (see `resolveConflictAux_spec`
  and claim C8) that this fuel is never exhausted for the existence
  predicate actually used, so the fuel-0 branch is dead code.
-/

/-- A filesystem path: the list of its name components from the root. -/
abbrev FPath := List String

namespace Organizer

/-- Last path component, `pathlib.PurePath.name` (empty for the root). -/
def pathName (p : FPath) : String := p.getLast?.getD ("")

/-- Parent path, `pathlib.PurePath.parent`. -/
def pathParent (p : FPath) : FPath := p.dropLast

/-- Index of the last '.' in a character list (Python `str.rfind('.')`),
`none` when there is no dot. -/
def lastDotIdx (cs : List Char) : Option Nat :=
  ((List.range cs.length).filter fun i => cs.getD i ' ' == '.').getLast?

/-- `pathlib.PurePath.suffix`: the part of the name from the last dot on,
provided that dot is neither the first nor the last character; otherwise
the empty string. -/
def pySuffix (name : String) : String :=
  let cs := name.toList
  match lastDotIdx cs with
  | some i => if 0 < i ∧ i < cs.length - 1 then (cs.drop i).asString else ("")
  | none => ("")

/-- `pathlib.PurePath.stem`: the name up to (excluding) the last dot,
under the same proviso as `pySuffix`; otherwise the whole name. -/
def pyStem (name : String) : String :=
  let cs := name.toList
  match lastDotIdx cs with
  | some i => if 0 < i ∧ i < cs.length - 1 then (cs.take i).asString else name
  | none => name

/-- The filesystem: directories, regular files and symlinks, each a finite
list of paths. -/
structure FS where
  dirs : List FPath
  files : List FPath
  links : List FPath
deriving DecidableEq, Repr

/-- All existing paths of the filesystem. -/
def allPaths (fs : FS) : List FPath := fs.dirs ++ fs.files ++ fs.links

/-- Number of filesystem entries. -/
def fsSize (fs : FS) : Nat := (allPaths fs).length

/-- `Path.exists()`: the path is a directory, a file or a symlink. -/
def pathExists (fs : FS) (p : FPath) : Bool := (allPaths fs).contains p

/-- `Path.is_dir()`. -/
def isDirIn (fs : FS) (p : FPath) : Bool := fs.dirs.contains p

/-- `Path.is_symlink()`. -/
def isLinkIn (fs : FS) (p : FPath) : Bool := fs.links.contains p

/-- `target_dir.mkdir(parents=True, exist_ok=True)` (line 107). -/
def mkdirFS (fs : FS) (d : FPath) : FS := { fs with dirs := fs.dirs ++ [d] }

/-- `shutil.move(str(item), str(target_path))` (line 124) for a regular
file and a non-existing destination path. -/
def moveFileFS (fs : FS) (a b : FPath) : FS :=
  { fs with files := fs.files.erase a ++ [b] }

/-- The static extension-to-category table `CATEGORIES` (lines 21-48). -/
def CATEGORIES : List (String × String) :=
  [(".py", "Python_Code"),
   (".ipynb", "Notebooks"),
   (".txt", "Documents"),
   (".md", "Documents"),
   (".pdf", "Documents"),
   (".docx", "Documents"),
   (".xlsx", "Spreadsheets"),
   (".csv", "Spreadsheets"),
   (".png", "Images"),
   (".jpg", "Images"),
   (".jpeg", "Images"),
   (".gif", "Images"),
   (".bmp", "Images"),
   (".mp3", "Audio"),
   (".wav", "Audio"),
   (".mp4", "Video"),
   (".mov", "Video"),
   (".zip", "Archives"),
   (".tar", "Archives"),
   (".gz", "Archives"),
   (".json", "Data"),
   (".xml", "Data"),
   (".html", "Web"),
   (".css", "Web"),
   (".js", "Web")]

/-- Python `str.lower()`, character by character (`Char.toLower` handles
exactly the basic latin letters; every extension in the table is ASCII,
where the two agree). -/
def strLower (s : String) : String := (s.toList.map Char.toLower).asString

/-- Python `str.startswith('.')`: the first character is a dot. -/
def startsWithDot (s : String) : Bool :=
  match s.toList with
  | [] => false
  | c :: _ => c == '.'

/-- Lines 101-102: `ext = item.suffix.lower()`;
`category = CATEGORIES.get(ext, 'Other')`. -/
def resolveCategory (ext : String) : String :=
  (CATEGORIES.lookup (strLower ext)).getD ("Other")

/-- The name `f"{stem} ({counter}){suffix}"` built by `resolve_conflict`
(lines 69 and 72). -/
def variantName (st sx : String) (k : Nat) : String :=
  st ++ (" (") ++ Nat.repr k ++ (")") ++ sx

/-- The `while new_target.exists()` loop of `resolve_conflict`
(lines 68-73), testing counters `c, c+1, ...` and returning the first
variant on which the existence predicate is false.  `fuel` bounds the
number of tests; the top-level caller passes fuel that is provably never
exhausted for the predicate in use. -/
def resolveConflictAux (ex : FPath → Bool) (parent : FPath) (st sx : String) :
    Nat → Nat → FPath
  | 0, c => parent ++ [variantName st sx c]
  | fuel + 1, c =>
    if ex (parent ++ [variantName st sx c]) then
      resolveConflictAux ex parent st sx fuel (c + 1)
    else
      parent ++ [variantName st sx c]

/-- `resolve_conflict(target)` (lines 63-73): splits the target name into
stem and suffix and searches counters starting at 1.  The existence
predicate is the real filesystem; the fuel `fsSize fs + 1` is never
exhausted (proved below). -/
def resolve_conflict (fs : FS) (target : FPath) : FPath :=
  resolveConflictAux (pathExists fs) (pathParent target)
    (pyStem (pathName target)) (pySuffix (pathName target)) (fsSize fs + 1) 1

/-- Lines 116-118: `if target_path.exists(): target_path =
resolve_conflict(target_path)` — the conflict-resolution step as the
organizer invokes it. -/
def resolveDestination (fs : FS) (target : FPath) : FPath :=
  if pathExists fs target then resolve_conflict fs target else target

/-- `is_same_file` (lines 75-79): `a.resolve() == b.resolve()`; on the
canonical link-free paths of the model, resolution is the identity. -/
def is_same_file (a b : FPath) : Bool := a == b

/-- Mutable state of one `organize_directory` run: the filesystem plus the
`moved`, `errors`, `skipped` accumulators and the `total_files` counter
(lines 86-89). -/
structure RunState where
  fs : FS
  moved : List (FPath × FPath)
  errors : List (FPath × String)
  skipped : List FPath
  total : Nat
deriving DecidableEq, Repr

/-- The `summary` dict (lines 137-142). -/
structure RunSummary where
  total_files_seen : Nat
  moved_count : Nat
  errors_count : Nat
  skipped_count : Nat
deriving DecidableEq, Repr

/-- The result dict (lines 149-154), extended with the final filesystem so
that mutation (or its absence) is observable. -/
structure RunResult where
  moved : List (FPath × FPath)
  errors : List (FPath × String)
  skipped : List FPath
  summary : RunSummary
  finalFS : FS
deriving DecidableEq, Repr

/-- A move-failure oracle: `mf item dst = some msg` means
`shutil.move(item, dst)` raises an exception rendered as `msg`. -/
abbrev MoveOracle := FPath → FPath → Option String

/-- The always-succeeding oracle (no exception is raised). -/
def noFail : MoveOracle := fun _ _ => none

/-- Line 103: `target_dir = source / category`, with the category resolved
from the item's lower-cased suffix (lines 101-102). -/
def targetDirOf (source item : FPath) : FPath :=
  source ++ [resolveCategory (pySuffix (pathName item))]

/-- Line 109: `target_path = target_dir / item.name`. -/
def targetPathOf (source item : FPath) : FPath :=
  targetDirOf source item ++ [pathName item]

/-- Lines 104-107: create the category directory when it does not exist
yet, unless in dry-run mode. -/
def fsAfterMkdir (fs : FS) (source item : FPath) (dryRun : Bool) : FS :=
  if !pathExists fs (targetDirOf source item) && !dryRun then
    mkdirFS fs (targetDirOf source item)
  else fs

/-- Lines 100-125 after the directory/symlink/hidden filters: classify the
item, create the category directory if needed (live mode only), skip
silently when the item is already at its destination, otherwise resolve
conflicts and move (live) or record (dry run); a failing move is caught
into `errors` (lines 126-134). -/
def handleFile (mf : MoveOracle) (source : FPath) (dryRun : Bool)
    (s : RunState) (item : FPath) : RunState :=
  let fs1 := fsAfterMkdir s.fs source item dryRun
  let targetPath := targetPathOf source item
  if is_same_file item targetPath then { s with fs := fs1 }
  else
    let finalPath := resolveDestination fs1 targetPath
    if dryRun then { s with fs := fs1, moved := s.moved ++ [(item, finalPath)] }
    else
      match mf item finalPath with
      | some msg => { s with fs := fs1, errors := s.errors ++ [(item, msg)] }
      | none => { s with fs := moveFileFS fs1 item finalPath,
                         moved := s.moved ++ [(item, finalPath)] }

/-- The loop body for one traversed entry (lines 91-134): directories and
symlinks are dropped, hidden names are recorded in `skipped` unless
`include_hidden`, every other entry is counted and handed to
`handleFile`. -/
def processItem (mf : MoveOracle) (source : FPath) (dryRun includeHidden : Bool)
    (s : RunState) (item : FPath) : RunState :=
  if isDirIn s.fs item || isLinkIn s.fs item then s
  else if !includeHidden && startsWithDot (pathName item) then
    { s with skipped := s.skipped ++ [item] }
  else
    handleFile mf source dryRun { s with total := s.total + 1 } item

/-- Processing of a listing of entries, in order. -/
def processList (mf : MoveOracle) (source : FPath) (dryRun includeHidden : Bool)
    (s : RunState) (items : List FPath) : RunState :=
  items.foldl (processItem mf source dryRun includeHidden) s

/-- Direct children of `d` among the stored paths `l`, in stored order. -/
def childrenIn (l : List FPath) (d : FPath) : List FPath :=
  l.filter fun p => p.dropLast == d && !p.isEmpty

/-- One `scandir` of `d`: all direct children, dirs then files then links. -/
def scanEntries (fs : FS) (d : FPath) : List FPath :=
  childrenIn fs.dirs d ++ childrenIn fs.files d ++ childrenIn fs.links d

/-- The `scandir` the recursive glob performs to find subdirectories to
recurse into (non-symlink directories only). -/
def scanSubdirs (fs : FS) (d : FPath) : List FPath := childrenIn fs.dirs d

/-- The `for item in source.rglob('*')` drive (line 91) over directory `d`:
list and process `d`'s entries, then list `d`'s subdirectories in the
post-processing filesystem and recurse.  `fuel` bounds the recursion
depth; `runFuel` below always dominates the depth of the finite tree. -/
def visitDir (mf : MoveOracle) (source : FPath) (dryRun includeHidden : Bool) :
    Nat → RunState → FPath → RunState
  | 0, s, _ => s
  | fuel + 1, s, d =>
    let s1 := processList mf source dryRun includeHidden s (scanEntries s.fs d)
    (scanSubdirs s1.fs d).foldl (visitDir mf source dryRun includeHidden fuel) s1

/-- Recursion-depth fuel for the walk. -/
def runFuel (fs : FS) : Nat := fsSize fs + 2

/-- `organize_directory` (lines 81-134) up to its final state: `none` when
the precondition `source.exists()` fails (line 82), otherwise the state
after the full walk. -/
def organizeState (mf : MoveOracle) (source : FPath) (fs : FS)
    (dryRun includeHidden : Bool) : Option RunState :=
  if !pathExists fs source then none
  else some (visitDir mf source dryRun includeHidden (runFuel fs)
    { fs := fs, moved := [], errors := [], skipped := [], total := 0 } source)

/-- `organize_directory` (lines 81-154): the returned dict, with the
summary counts computed as the list lengths (lines 137-142). -/
def organize_directory (mf : MoveOracle) (source : FPath) (fs : FS)
    (dryRun includeHidden : Bool) : Option RunResult :=
  (organizeState mf source fs dryRun includeHidden).map fun s =>
    { moved := s.moved, errors := s.errors, skipped := s.skipped,
      summary := { total_files_seen := s.total, moved_count := s.moved.length,
                   errors_count := s.errors.length,
                   skipped_count := s.skipped.length },
      finalFS := s.fs }

/-- Number of occupied `" (N)"` variants among the counters
`1 .. fsSize fs + 1`, the window the termination argument inspects. -/
def conflictCount (fs : FS) (parent : FPath) (st sx : String) : Nat :=
  ((List.range (fsSize fs + 1)).filter fun i =>
    pathExists fs (parent ++ [variantName st sx (i + 1)])).length

/-- Fixture: a fresh run state over `fs` with empty accumulators. -/
def stateOf (fs : FS) : RunState :=
  { fs := fs, moved := [], errors := [], skipped := [], total := 0 }

/-- Fixture: a source tree holding `src/x.txt` and `src/sub/x.txt`, two
distinct files with the same name and hence the same candidate
destination `src/Documents/x.txt`. -/
def twoSameNameFS : FS :=
  { dirs := [["src"], ["src", "sub"]],
    files := [["src", "x.txt"], ["src", "sub", "x.txt"]], links := [] }

/-- Fixture: a source tree holding the single file `src/x.txt`. -/
def oneFileFS : FS :=
  { dirs := [["src"]], files := [["src", "x.txt"]], links := [] }

/-- Fixture: a tree whose only file already sits inside its category
directory: `src/Documents/x.txt`. -/
def inPlaceFS : FS :=
  { dirs := [["src"], ["src", "Documents"]],
    files := [["src", "Documents", "x.txt"]], links := [] }

/-- Fixture: a directory `d` holding only `x.txt`; no variant name is
occupied. -/
def noVariantFS : FS :=
  { dirs := [["d"]], files := [["d", "x.txt"]], links := [] }

/-- Fixture: a tree with a subdirectory, a hidden file, a regular file and
a symlink, all directly under `src`. -/
def mixedFS : FS :=
  { dirs := [["src"], ["src", "sub"]],
    files := [["src", ".env"], ["src", "a.txt"]],
    links := [["src", "lnk"]] }

/-- Fixture: the oracle under which every move raises, rendered "denied". -/
def alwaysDenied : MoveOracle := fun _ _ => some ("denied")

/-- `handleFile` never touches the `total` counter (it is incremented by
its caller, line 100). -/
theorem handleFile_total (mf : MoveOracle) (source : FPath) (dryRun : Bool)
    (s : RunState) (item : FPath) :
    (handleFile mf source dryRun s item).total = s.total := by
  cases hs : is_same_file item (targetPathOf source item) with
  | true => cases hd : dryRun <;> simp [handleFile, hs, hd]
  | false =>
    cases hd : dryRun with
    | true => simp [handleFile, hs, hd]
    | false =>
      cases hmf : mf item (resolveDestination
          (fsAfterMkdir s.fs source item false) (targetPathOf source item)) <;>
        simp [handleFile, hs, hd, hmf]

/-- `fsAfterMkdir` never touches the recorded files (directory creation
only). -/
theorem fsAfterMkdir_files (fs : FS) (source item : FPath) (dryRun : Bool) :
    (fsAfterMkdir fs source item dryRun).files = fs.files := by
  unfold fsAfterMkdir
  split <;> rfl

/-- C5: if the existence predicate is false on the candidate path, the
conflict-resolution step (lines 116-118) returns the candidate path
unchanged — no numeric suffix is added. -/
theorem c5_no_conflict_keeps_candidate (fs : FS) (target : FPath)
    (h : pathExists fs target = false) :
    resolveDestination fs target = target := by
  unfold resolveDestination
  simp [h]

/-- Witness for C5: a concrete candidate that does not exist is returned
unchanged. -/
theorem c5_witness :
    pathExists noVariantFS ["d", "y.txt"] = false ∧
    resolveDestination noVariantFS ["d", "y.txt"] = ["d", "y.txt"] :=
  ⟨by decide, c5_no_conflict_keeps_candidate _ _ (by decide)⟩

/-- C7: the resolved category is obtained by lower-casing the extension and
looking it up in the static table, so it is independent of letter case;
every unmapped or missing extension (including the empty extension of
extension-less names) resolves to "Other"; and the per-file target
directory is `source / category`. -/
theorem c7_category_resolution :
    (∀ e1 e2 : String, strLower e1 = strLower e2 →
        resolveCategory e1 = resolveCategory e2) ∧
    (∀ (e c : String), CATEGORIES.lookup (strLower e) = some c →
        resolveCategory e = c) ∧
    (∀ e : String, CATEGORIES.lookup (strLower e) = none →
        resolveCategory e = ("Other")) ∧
    resolveCategory ("") = ("Other") ∧
    (∀ source item : FPath, targetDirOf source item =
        source ++ [resolveCategory (pySuffix (pathName item))]) := by
  refine ⟨?_, ?_, ?_, ?_, ?_⟩
  · intro e1 e2 h; unfold resolveCategory; rw [h]
  · intro e c h; unfold resolveCategory; rw [h]; rfl
  · intro e h; unfold resolveCategory; rw [h]; rfl
  · rfl
  · intro source item; rfl

/-- Witness for C7: `.PNG` and `.png` both resolve to "Images", and an
unmapped extension resolves to "Other". -/
theorem c7_witness :
    resolveCategory (".PNG") = resolveCategory (".png") ∧
    resolveCategory (".PNG") = ("Images") ∧
    resolveCategory (".weird") = ("Other") :=
  ⟨c7_category_resolution.1 (".PNG") (".png") (by decide),
   c7_category_resolution.2.1 (".PNG") ("Images") (by decide),
   c7_category_resolution.2.2.1 (".weird") (by decide)⟩

/-- C10: in every non-None result of `organize_directory`, the summary
counts equal the lengths of the corresponding result lists. -/
theorem c10_counts_are_lengths (mf : MoveOracle) (source : FPath) (fs : FS)
    (dryRun includeHidden : Bool) (r : RunResult)
    (h : organize_directory mf source fs dryRun includeHidden = some r) :
    r.summary.moved_count = r.moved.length ∧
    r.summary.errors_count = r.errors.length ∧
    r.summary.skipped_count = r.skipped.length := by
  unfold organize_directory at h
  cases hs : organizeState mf source fs dryRun includeHidden with
  | none => rw [hs] at h; simp at h
  | some s =>
    rw [hs] at h
    simp only [Option.map_some', Option.some.injEq] at h
    subst h
    exact ⟨rfl, rfl, rfl⟩

/-- Witness for C10 at a concrete dry run. -/
theorem c10_witness :
    (organize_directory noFail ["src"] oneFileFS true false).map
        (fun r => (r.summary.moved_count, r.moved.length)) = some (1, 1) ∧
    ((organize_directory noFail ["src"] oneFileFS true false).elim True
      fun r => r.summary.moved_count = r.moved.length ∧
        r.summary.errors_count = r.errors.length ∧
        r.summary.skipped_count = r.skipped.length) :=
  ⟨by decide,
   c10_counts_are_lengths noFail ["src"] oneFileFS true false _ (by decide)⟩

/-- C1 is violated by the code (code bug): in a dry run over
`twoSameNameFS`, the two distinct source files `src/x.txt` and
`src/sub/x.txt` are both recorded with the identical final destination
`src/Documents/x.txt`.  The existence predicate used by the conflict
resolution (line 116 and `resolve_conflict`) consults only the real
filesystem, which a dry run never mutates, so the destination claimed by
the first record is not seen when the second is resolved. -/
theorem c1_dry_run_collision :
    (organize_directory noFail ["src"] twoSameNameFS true false).map
        (fun r => r.moved) =
      some [(["src", "x.txt"], ["src", "Documents", "x.txt"]),
            (["src", "sub", "x.txt"], ["src", "Documents", "x.txt"])] := by
  decide

/-- C2 is violated by the code (code bug): over `oneFileFS` the dry run
reports `total_files_seen = 1` while the live run reports 2 — the lazy
`rglob` walk lists the subdirectories of `src` only after the moves, finds
the newly created `Documents` directory and re-counts the moved file.  The
no-mutation half of the claim does hold: the dry run returns the
filesystem unchanged. -/
theorem c2_dry_live_counts_diverge :
    (organize_directory noFail ["src"] oneFileFS false false).map
        (fun r => r.summary.total_files_seen) = some 2 ∧
    (organize_directory noFail ["src"] oneFileFS true false).map
        (fun r => r.summary.total_files_seen) = some 1 ∧
    (organize_directory noFail ["src"] oneFileFS true false).map
        (fun r => r.finalFS) = some oneFileFS :=
  ⟨by decide, by decide, by decide⟩

/-- C3 as stated is violated: over `inPlaceFS` the only file already sits
at its destination; the run drops it silently (line 114 `continue`), so
`skipped` stays empty and `skipped_count = 0`, not 1 as the claim's
"recorded as a skipped entry" requires.  The file is still counted in
`total_files_seen` and nothing is moved. -/
theorem c3_counterexample :
    organize_directory noFail ["src"] inPlaceFS false false =
      some { moved := [], errors := [], skipped := [],
             summary := { total_files_seen := 1, moved_count := 0,
                          errors_count := 0, skipped_count := 0 },
             finalFS := inPlaceFS } := by
  decide

/-- C3 (amended): a file whose source path equals its candidate
destination is processed without a move, without conflict resolution and
without any record: `moved`, `errors` and `skipped` are all unchanged (so
it does not contribute to `skipped_count`), `total_files_seen` increments
by one, and no file is touched (only the category directory may be
created). -/
theorem c3_in_place_is_silent_skip (mf : MoveOracle) (source : FPath)
    (dryRun includeHidden : Bool) (s : RunState) (item : FPath)
    (hdir : (isDirIn s.fs item || isLinkIn s.fs item) = false)
    (hhid : (!includeHidden && startsWithDot (pathName item)) = false)
    (hsame : is_same_file item (targetPathOf source item) = true) :
    processItem mf source dryRun includeHidden s item =
      { s with fs := fsAfterMkdir s.fs source item dryRun,
               total := s.total + 1 } ∧
    (fsAfterMkdir s.fs source item dryRun).files = s.fs.files := by
  refine ⟨?_, fsAfterMkdir_files _ _ _ _⟩
  simp only [processItem, hdir, hhid, Bool.false_eq_true, if_false]
  simp only [handleFile, hsame, if_true]

/-- Witness for the amended C3 at a concrete in-place file. -/
theorem c3_witness :
    is_same_file ["src", "Documents", "x.txt"]
      (targetPathOf ["src"] ["src", "Documents", "x.txt"]) = true ∧
    processItem noFail ["src"] false false (stateOf inPlaceFS)
        ["src", "Documents", "x.txt"] =
      { stateOf inPlaceFS with total := 1 } :=
  ⟨by decide, by
    have h := c3_in_place_is_silent_skip noFail ["src"] false false
      (stateOf inPlaceFS) ["src", "Documents", "x.txt"]
      (by decide) (by decide) (by decide)
    exact h.1.trans (by decide)⟩

/-- C4: only the precondition can abort a run — `organize_directory`
returns the sentinel `none` exactly when the source root does not exist;
a failure raised by a move is caught and converted to an ErrorRecord
pairing the source path with the message, with nothing else recorded and
no file moved; and the traversal loop always continues with the remaining
entries, since the per-item step is a total function. -/
theorem c4_error_containment :
    (∀ (mf : MoveOracle) (source : FPath) (fs : FS)
        (dryRun includeHidden : Bool),
      organizeState mf source fs dryRun includeHidden = none ↔
        pathExists fs source = false) ∧
    (∀ (mf : MoveOracle) (source : FPath) (s : RunState) (item : FPath)
        (msg : String),
      is_same_file item (targetPathOf source item) = false →
      mf item (resolveDestination (fsAfterMkdir s.fs source item false)
        (targetPathOf source item)) = some msg →
      handleFile mf source false s item =
        { s with fs := fsAfterMkdir s.fs source item false,
                 errors := s.errors ++ [(item, msg)] }) ∧
    (∀ (mf : MoveOracle) (source : FPath) (dryRun includeHidden : Bool)
        (s : RunState) (item : FPath) (rest : List FPath),
      processList mf source dryRun includeHidden s (item :: rest) =
        processList mf source dryRun includeHidden
          (processItem mf source dryRun includeHidden s item) rest) := by
  refine ⟨?_, ?_, ?_⟩
  · intro mf source fs dryRun includeHidden
    unfold organizeState
    cases hp : pathExists fs source <;> simp [hp]
  · intro mf source s item msg hsame hmf
    simp only [handleFile, hsame, Bool.false_eq_true, if_false, hmf]
  · intro mf source dryRun includeHidden s item rest
    rfl

/-- Witness for C4: a concrete failing move is downgraded to an
ErrorRecord. -/
theorem c4_witness :
    is_same_file ["src", "x.txt"] (targetPathOf ["src"] ["src", "x.txt"])
      = false ∧
    handleFile alwaysDenied ["src"] false (stateOf oneFileFS)
        ["src", "x.txt"] =
      { stateOf oneFileFS with
          fs := fsAfterMkdir oneFileFS ["src"] ["src", "x.txt"] false,
          errors := [(["src", "x.txt"], "denied")] } :=
  ⟨by decide, by
    have h := c4_error_containment.2.1 alwaysDenied ["src"]
      (stateOf oneFileFS) ["src", "x.txt"] ("denied") (by decide) (by decide)
    exact h.trans (by decide)⟩

/-- C9: directories and symlinks are never classified and never counted;
when hidden files are excluded, an entry whose name starts with the marker
is recorded in `skipped` and not counted; every remaining entry is counted
exactly once and handed to the classification-and-move stage. -/
theorem c9_traversal_classification (mf : MoveOracle) (source : FPath)
    (dryRun includeHidden : Bool) (s : RunState) (item : FPath) :
    ((isDirIn s.fs item || isLinkIn s.fs item) = true →
      processItem mf source dryRun includeHidden s item = s) ∧
    ((isDirIn s.fs item || isLinkIn s.fs item) = false →
     (!includeHidden && startsWithDot (pathName item)) = true →
      processItem mf source dryRun includeHidden s item =
        { s with skipped := s.skipped ++ [item] }) ∧
    ((isDirIn s.fs item || isLinkIn s.fs item) = false →
     (!includeHidden && startsWithDot (pathName item)) = false →
      processItem mf source dryRun includeHidden s item =
        handleFile mf source dryRun { s with total := s.total + 1 } item ∧
      (processItem mf source dryRun includeHidden s item).total
        = s.total + 1) := by
  refine ⟨?_, ?_, ?_⟩
  · intro h; unfold processItem; rw [h]; rfl
  · intro h1 h2; unfold processItem; rw [h1, h2]; rfl
  · intro h1 h2
    have he : processItem mf source dryRun includeHidden s item =
        handleFile mf source dryRun { s with total := s.total + 1 } item := by
      unfold processItem; rw [h1, h2]; rfl
    refine ⟨he, ?_⟩
    rw [he, handleFile_total]

/-- Witness for C9: a subdirectory is not counted, a dotfile is recorded as
skipped, and a regular file is counted once. -/
theorem c9_witness :
    processItem noFail ["src"] false false (stateOf mixedFS) ["src", "sub"]
      = stateOf mixedFS ∧
    processItem noFail ["src"] false false (stateOf mixedFS) ["src", "lnk"]
      = stateOf mixedFS ∧
    processItem noFail ["src"] false false (stateOf mixedFS) ["src", ".env"]
      = { stateOf mixedFS with skipped := [["src", ".env"]] } ∧
    (processItem noFail ["src"] false false (stateOf mixedFS)
      ["src", "a.txt"]).total = 1 :=
  ⟨(c9_traversal_classification noFail ["src"] false false
      (stateOf mixedFS) ["src", "sub"]).1 (by decide),
   (c9_traversal_classification noFail ["src"] false false
      (stateOf mixedFS) ["src", "lnk"]).1 (by decide),
   by
    have h := (c9_traversal_classification noFail ["src"] false false
      (stateOf mixedFS) ["src", ".env"]).2.1 (by decide) (by decide)
    exact h.trans (by decide),
   ((c9_traversal_classification noFail ["src"] false false
      (stateOf mixedFS) ["src", "a.txt"]).2.2 (by decide) (by decide)).2⟩

/-- Dry-run purity, per item: with `dry_run` set, the loop body never
touches the filesystem (`mkdir` and `shutil.move` are both guarded). -/
theorem processItem_dry_fs (mf : MoveOracle) (source : FPath)
    (includeHidden : Bool) (s : RunState) (item : FPath) :
    (processItem mf source true includeHidden s item).fs = s.fs := by
  unfold processItem
  split
  · rfl
  · split
    · rfl
    · unfold handleFile fsAfterMkdir
      simp only [Bool.not_true, Bool.and_false, Bool.false_eq_true, if_false]
      split <;> rfl

/-- Dry-run purity for one listing of entries. -/
theorem processList_dry_fs (mf : MoveOracle) (source : FPath)
    (includeHidden : Bool) :
    ∀ (items : List FPath) (s : RunState),
    (processList mf source true includeHidden s items).fs = s.fs := by
  intro items
  induction items with
  | nil => intro s; rfl
  | cons item rest ih =>
    intro s
    have h1 : processList mf source true includeHidden s (item :: rest) =
        processList mf source true includeHidden
          (processItem mf source true includeHidden s item) rest := rfl
    rw [h1, ih, processItem_dry_fs]

/-- Dry-run purity for the whole recursive walk. -/
theorem visitDir_dry_fs (mf : MoveOracle) (source : FPath)
    (includeHidden : Bool) :
    ∀ (fuel : Nat) (s : RunState) (d : FPath),
    (visitDir mf source true includeHidden fuel s d).fs = s.fs := by
  intro fuel
  induction fuel with
  | zero => intro s d; rfl
  | succ f ih =>
    intro s d
    have hfold : ∀ (l : List FPath) (t : RunState),
        ((l.foldl (visitDir mf source true includeHidden f) t)).fs = t.fs := by
      intro l
      induction l with
      | nil => intro t; rfl
      | cons d2 ds ih2 =>
        intro t
        have h2 : (d2 :: ds).foldl (visitDir mf source true includeHidden f) t
            = ds.foldl (visitDir mf source true includeHidden f)
                (visitDir mf source true includeHidden f t d2) := rfl
        rw [h2, ih2, ih]
    have hstep : visitDir mf source true includeHidden (f + 1) s d =
        (scanSubdirs (processList mf source true includeHidden s
            (scanEntries s.fs d)).fs d).foldl
          (visitDir mf source true includeHidden f)
          (processList mf source true includeHidden s (scanEntries s.fs d)) := rfl
    rw [hstep, hfold]
    exact processList_dry_fs mf source includeHidden (scanEntries s.fs d) s

/-- A dry run of `organize_directory` never mutates the filesystem: every
successful dry run returns the initial tree unchanged (no directory is
created, no file is moved). -/
theorem dry_run_no_mutation (mf : MoveOracle) (source : FPath) (fs : FS)
    (includeHidden : Bool) (r : RunResult)
    (h : organize_directory mf source fs true includeHidden = some r) :
    r.finalFS = fs := by
  unfold organize_directory organizeState at h
  by_cases hp : pathExists fs source
  · rw [if_neg (by simp [hp])] at h
    simp only [Option.map_some', Option.some.injEq] at h
    subst h
    exact visitDir_dry_fs mf source includeHidden (runFuel fs) _ source
  · rw [if_pos (by simp [Bool.not_eq_true] at hp ⊢; exact hp)] at h
    simp at h

/-- Bridge from the boolean `Path.exists` to membership. -/
theorem pathExists_iff (fs : FS) (p : FPath) :
    pathExists fs p = true ↔ p ∈ allPaths fs := by
  unfold pathExists
  exact List.elem_iff

/-- Distinct decimal digits below 10 print as distinct characters. -/
theorem digitChar_inj :
    ∀ a, a < 10 → ∀ b, b < 10 → Nat.digitChar a = Nat.digitChar b → a = b := by
  decide

/-- Mapping `Nat.digitChar` over lists of digits below 10 is injective. -/
theorem map_digitChar_cancel :
    ∀ (l1 : List Nat), (∀ d ∈ l1, d < 10) →
    ∀ (l2 : List Nat), (∀ d ∈ l2, d < 10) →
    l1.map Nat.digitChar = l2.map Nat.digitChar → l1 = l2 := by
  intro l1
  induction l1 with
  | nil =>
    intro _ l2 _ h
    cases l2 with
    | nil => rfl
    | cons b bs => simp at h
  | cons a as ih =>
    intro hl1 l2 hl2 h
    cases l2 with
    | nil => simp at h
    | cons b bs =>
      simp only [List.map_cons, List.cons.injEq] at h
      have hab := digitChar_inj a (hl1 a (by simp)) b (hl2 b (by simp)) h.1
      have htl := ih (fun d hd => hl1 d (by simp [hd])) bs
        (fun d hd => hl2 d (by simp [hd])) h.2
      rw [hab, htl]

/-- One step of the core printing loop of `Nat.repr`. -/
theorem toDigitsCore_succ (b f n : Nat) (ds : List Char) :
    Nat.toDigitsCore b (f + 1) n ds =
      if n / b = 0 then Nat.digitChar (n % b) :: ds
      else Nat.toDigitsCore b f (n / b) (Nat.digitChar (n % b) :: ds) := rfl

/-- The core printing loop of `Nat.repr` produces exactly the base-10
digits, most significant first. -/
theorem toDigitsCore_eq_digits (fuel : Nat) :
    ∀ (n : Nat) (ds : List Char), 0 < n → n ≤ fuel →
    Nat.toDigitsCore 10 fuel n ds =
      ((Nat.digits 10 n).reverse.map Nat.digitChar) ++ ds := by
  induction fuel with
  | zero => intro n ds h1 h2; omega
  | succ f ih =>
    intro n ds h1 h2
    have hd : Nat.digits 10 n = n % 10 :: Nat.digits 10 (n / 10) :=
      Nat.digits_def' (by norm_num) h1
    rw [toDigitsCore_succ]
    by_cases hz : n / 10 = 0
    · rw [if_pos hz, hd, hz]
      simp
    · have hlt : n / 10 < n := Nat.div_lt_self h1 (by norm_num)
      rw [if_neg hz, ih (n / 10) _ (Nat.pos_of_ne_zero hz) (by omega), hd]
      simp [List.append_assoc]

/-- `Nat.toDigits 10` agrees with `Nat.digits` on positive numbers. -/
theorem toDigits_eq_digits {n : Nat} (h : 0 < n) :
    Nat.toDigits 10 n = (Nat.digits 10 n).reverse.map Nat.digitChar := by
  have h2 := toDigitsCore_eq_digits (n + 1) n [] h (by omega)
  simpa [Nat.toDigits] using h2

/-- Digits produced by `Nat.digits 10` are below 10. -/
theorem digits_ten_lt {n d : Nat} (hd : d ∈ Nat.digits 10 n) : d < 10 :=
  Nat.digits_lt_base (by norm_num) hd

/-- A positive number never prints like zero. -/
theorem toDigits_ten_zero_ne {n : Nat} (hn : 0 < n) :
    Nat.toDigits 10 n ≠ Nat.toDigits 10 0 := by
  intro h
  rw [toDigits_eq_digits hn] at h
  have h0 : ((Nat.digits 10 n).reverse).map Nat.digitChar =
      ([0] : List Nat).map Nat.digitChar := by
    rw [h]; rfl
  have h1 := map_digitChar_cancel _
    (fun d hd => digits_ten_lt (List.mem_reverse.mp hd)) [0]
    (by intro d hd; simp at hd; omega) h0
  have h2 : Nat.digits 10 n = [0] := by
    have h3 := congrArg List.reverse h1
    simpa using h3
  have h4 := Nat.ofDigits_digits 10 n
  rw [h2] at h4
  simp [Nat.ofDigits] at h4
  omega

/-- The decimal printing used by `resolve_conflict`'s counters is
injective. -/
theorem toDigits_ten_inj {m n : Nat}
    (h : Nat.toDigits 10 m = Nat.toDigits 10 n) : m = n := by
  rcases Nat.eq_zero_or_pos m with hm | hm <;>
    rcases Nat.eq_zero_or_pos n with hn | hn
  · omega
  · subst hm
    exact absurd h.symm (toDigits_ten_zero_ne hn)
  · subst hn
    exact absurd h (toDigits_ten_zero_ne hm)
  · rw [toDigits_eq_digits hm, toDigits_eq_digits hn] at h
    have h1 := map_digitChar_cancel _
      (fun d hd => digits_ten_lt (List.mem_reverse.mp hd)) _
      (fun d hd => digits_ten_lt (List.mem_reverse.mp hd)) h
    have h2 : Nat.digits 10 m = Nat.digits 10 n := by
      have h3 := congrArg List.reverse h1
      simpa using h3
    exact Nat.digits.injective 10 h2

/-- `Nat.repr` is injective. -/
theorem nat_repr_inj {m n : Nat} (h : Nat.repr m = Nat.repr n) : m = n :=
  toDigits_ten_inj (congrArg String.data h)

/-- Distinct counters synthesize syntactically distinct variant names. -/
theorem variantName_inj (st sx : String) {k j : Nat}
    (h : variantName st sx k = variantName st sx j) : k = j := by
  unfold variantName at h
  have hd := congrArg String.data h
  simp only [String.data_append, List.append_assoc] at hd
  have hd2 := List.append_cancel_left hd
  have hd3 := List.append_cancel_left hd2
  have hlen : (Nat.repr k).data.length = (Nat.repr j).data.length := by
    have h4 := congrArg List.length hd3
    simp only [List.length_append] at h4
    omega
  have h5 := (List.append_inj hd3 hlen).1
  exact nat_repr_inj (by
    apply congrArg List.asString at h5
    simpa [List.asString] using h5)

/-- Distinct counters synthesize distinct candidate paths. -/
theorem variantPath_inj (parent : FPath) (st sx : String) {k j : Nat}
    (h : parent ++ [variantName st sx k] = parent ++ [variantName st sx j]) :
    k = j := by
  have h1 := List.append_cancel_left h
  simp only [List.cons.injEq, and_true] at h1
  exact variantName_inj st sx h1

/-- If the counters `1 .. N` are all occupied, the filesystem holds at
least `N` entries (the candidates are pairwise distinct). -/
theorem occupied_le_size (fs : FS) (parent : FPath) (st sx : String) (N : Nat)
    (h : ∀ k, 1 ≤ k → k ≤ N →
      pathExists fs (parent ++ [variantName st sx k]) = true) :
    N ≤ fsSize fs := by
  have hnodup : ((List.range N).map
      (fun i => parent ++ [variantName st sx (i + 1)])).Nodup := by
    refine List.Nodup.map ?_ (List.nodup_range N)
    intro a b hab
    have h2 := variantPath_inj parent st sx hab
    omega
  have hsub : ((List.range N).map
      (fun i => parent ++ [variantName st sx (i + 1)])) ⊆ allPaths fs := by
    intro p hp
    simp only [List.mem_map, List.mem_range] at hp
    obtain ⟨i, hi, rfl⟩ := hp
    exact (pathExists_iff fs _).mp (h (i + 1) (by omega) (by omega))
  have h3 := (hnodup.subperm hsub).length_le
  simpa [fsSize] using h3

/-- Some counter in the window `1 .. fsSize fs + 1` is free: the loop of
`resolve_conflict` always has a pigeonhole to land in. -/
theorem exists_free_variant (fs : FS) (parent : FPath) (st sx : String) :
    ∃ k, 1 ≤ k ∧ k ≤ fsSize fs + 1 ∧
      pathExists fs (parent ++ [variantName st sx k]) = false := by
  by_contra hcon
  push_neg at hcon
  have h : ∀ k, 1 ≤ k → k ≤ fsSize fs + 1 →
      pathExists fs (parent ++ [variantName st sx k]) = true := by
    intro k h1 h2
    have h3 := hcon k h1 h2
    cases hx : pathExists fs (parent ++ [variantName st sx k]) with
    | false => exact absurd hx h3
    | true => rfl
  have h4 := occupied_le_size fs parent st sx (fsSize fs + 1) h
  omega

/-- One test of the `while` loop of `resolve_conflict`. -/
theorem resolveConflictAux_succ (ex : FPath → Bool) (parent : FPath)
    (st sx : String) (f c : Nat) :
    resolveConflictAux ex parent st sx (f + 1) c =
      if ex (parent ++ [variantName st sx c]) then
        resolveConflictAux ex parent st sx f (c + 1)
      else parent ++ [variantName st sx c] := rfl

/-- The loop of `resolve_conflict` returns the first free variant at or
after the starting counter, provided the fuel covers the distance. -/
theorem resolveConflictAux_spec (ex : FPath → Bool) (parent : FPath)
    (st sx : String) (fuel : Nat) :
    ∀ (c k : Nat), c ≤ k → k - c < fuel →
    (∀ j, c ≤ j → j < k → ex (parent ++ [variantName st sx j]) = true) →
    ex (parent ++ [variantName st sx k]) = false →
    resolveConflictAux ex parent st sx fuel c =
      parent ++ [variantName st sx k] := by
  induction fuel with
  | zero => intro c k hck hfuel hocc hfree; omega
  | succ f ih =>
    intro c k hck hfuel hocc hfree
    rw [resolveConflictAux_succ]
    by_cases hc : c = k
    · subst hc
      simp [hfree]
    · have h1 := hocc c le_rfl (by omega)
      simp only [h1, if_true]
      exact ih (c + 1) k (by omega) (by omega)
        (fun j hj1 hj2 => hocc j (by omega) hj2) hfree

/-- For every finite filesystem, the loop of `resolve_conflict` reaches the
least free counter, within the window the conflict count bounds. -/
theorem resolve_loop_spec (fs : FS) (parent : FPath) (st sx : String) :
    ∃ k, 1 ≤ k ∧ k ≤ conflictCount fs parent st sx + 1 ∧
      (∀ j, 1 ≤ j → j < k →
        pathExists fs (parent ++ [variantName st sx j]) = true) ∧
      pathExists fs (parent ++ [variantName st sx k]) = false ∧
      resolveConflictAux (pathExists fs) parent st sx (fsSize fs + 1) 1 =
        parent ++ [variantName st sx k] := by
  obtain ⟨k1, hk1a, hk1b, hk1c⟩ := exists_free_variant fs parent st sx
  have hP : ∃ j, pathExists fs (parent ++ [variantName st sx (j + 1)]) = false :=
    ⟨k1 - 1, by
      have hk : k1 - 1 + 1 = k1 := by omega
      rw [hk]
      exact hk1c⟩
  have hj0 : pathExists fs
      (parent ++ [variantName st sx (Nat.find hP + 1)]) = false :=
    Nat.find_spec hP
  have hj0min : ∀ i, i < Nat.find hP →
      pathExists fs (parent ++ [variantName st sx (i + 1)]) = true := by
    intro i hi
    have h2 := Nat.find_min hP hi
    cases hx : pathExists fs (parent ++ [variantName st sx (i + 1)]) with
    | false => exact absurd hx h2
    | true => rfl
  have hj0le : Nat.find hP ≤ fsSize fs := by
    have h3 : Nat.find hP ≤ k1 - 1 := Nat.find_min' hP (by
      have hk : k1 - 1 + 1 = k1 := by omega
      rw [hk]
      exact hk1c)
    omega
  have hcount : Nat.find hP ≤ conflictCount fs parent st sx := by
    have hsplit : List.range (fsSize fs + 1) =
        List.range (Nat.find hP) ++
          (List.range (fsSize fs + 1 - Nat.find hP)).map (Nat.find hP + ·) := by
      rw [← List.range_add]
      congr 1
      omega
    have hall : (List.range (Nat.find hP)).filter
        (fun i => pathExists fs (parent ++ [variantName st sx (i + 1)])) =
        List.range (Nat.find hP) :=
      List.filter_eq_self.mpr (fun i hi => hj0min i (List.mem_range.mp hi))
    unfold conflictCount
    rw [hsplit, List.filter_append, List.length_append, hall, List.length_range]
    omega
  refine ⟨Nat.find hP + 1, by omega, by omega, ?_, hj0, ?_⟩
  · intro j hj1 hj2
    have h5 := hj0min (j - 1) (by omega)
    have hj : j - 1 + 1 = j := by omega
    rw [hj] at h5
    exact h5
  · exact resolveConflictAux_spec (pathExists fs) parent st sx (fsSize fs + 1)
      1 (Nat.find hP + 1) (by omega) (by omega)
      (fun j hj1 hj2 => by
        have h5 := hj0min (j - 1) (by omega)
        have hj : j - 1 + 1 = j := by omega
        rw [hj] at h5
        exact h5) hj0

/-- `pathlib` name algebra: the parent of `l / a` is `l`. -/
theorem pathParent_concat (l : FPath) (a : String) : pathParent (l ++ [a]) = l := by
  simp [pathParent]

/-- `pathlib` name algebra: the name of `l / a` is `a`. -/
theorem pathName_concat (l : FPath) (a : String) : pathName (l ++ [a]) = a := by
  simp [pathName]

/-- C8: for every finite filesystem the conflict-resolution loop
terminates: it reaches a counter whose candidate the existence predicate
rejects after at most `conflictCount + 1` tests (the synthesized
candidates are pairwise distinct, so the occupied ones cannot cover the
whole window), and returns that candidate. -/
theorem c8_conflict_loop_terminates (fs : FS) (target : FPath) :
    ∃ k, 1 ≤ k ∧
      k ≤ conflictCount fs (pathParent target) (pyStem (pathName target))
            (pySuffix (pathName target)) + 1 ∧
      (∀ j, 1 ≤ j → j < k →
        pathExists fs (pathParent target ++
          [variantName (pyStem (pathName target))
            (pySuffix (pathName target)) j]) = true) ∧
      pathExists fs (pathParent target ++
        [variantName (pyStem (pathName target))
          (pySuffix (pathName target)) k]) = false ∧
      resolve_conflict fs target = pathParent target ++
        [variantName (pyStem (pathName target))
          (pySuffix (pathName target)) k] := by
  obtain ⟨k, h1, h2, h3, h4, h5⟩ := resolve_loop_spec fs (pathParent target)
    (pyStem (pathName target)) (pySuffix (pathName target))
  exact ⟨k, h1, h2, h3, h4, h5⟩

/-- C6: when the candidate `parent / name` exists and the occupied
variants are exactly the counters `1 .. N`, the conflict-resolution step
returns exactly the variant `N + 1` — the incrementing `" (N)"` suffix is
inserted immediately before the extension and the first free variant is
returned. -/
theorem c6_incrementing_suffix (fs : FS) (parent : FPath) (name : String)
    (N : Nat)
    (hex : pathExists fs (parent ++ [name]) = true)
    (hvar : ∀ k, 1 ≤ k →
      (pathExists fs
        (parent ++ [variantName (pyStem name) (pySuffix name) k]) = true
        ↔ k ≤ N)) :
    resolveDestination fs (parent ++ [name]) =
      parent ++ [variantName (pyStem name) (pySuffix name) (N + 1)] := by
  have hocc : ∀ j, 1 ≤ j → j < N + 1 →
      pathExists fs (parent ++ [variantName (pyStem name) (pySuffix name) j])
        = true :=
    fun j h1 h2 => (hvar j h1).mpr (by omega)
  have hfree : pathExists fs
      (parent ++ [variantName (pyStem name) (pySuffix name) (N + 1)])
        = false := by
    cases hx : pathExists fs
        (parent ++ [variantName (pyStem name) (pySuffix name) (N + 1)]) with
    | false => rfl
    | true =>
      have h2 := (hvar (N + 1) (by omega)).mp hx
      omega
  have hNle : N ≤ fsSize fs :=
    occupied_le_size fs parent _ _ N (fun k h1 h2 => (hvar k h1).mpr h2)
  have hmain := resolveConflictAux_spec (pathExists fs) parent
    (pyStem name) (pySuffix name) (fsSize fs + 1) 1 (N + 1) (by omega)
    (by omega) hocc hfree
  unfold resolveDestination
  rw [if_pos hex]
  unfold resolve_conflict
  rw [pathParent_concat, pathName_concat]
  exact hmain

/-- Witness for C6: with no variant occupied (N = 0), the occupied
candidate `d/x.txt` resolves to `d/x (1).txt`. -/
theorem c6_witness :
    pathExists noVariantFS ["d", "x.txt"] = true ∧
    resolveDestination noVariantFS ["d", "x.txt"] = ["d", "x (1).txt"] := by
  refine ⟨by decide, ?_⟩
  refine (c6_incrementing_suffix noVariantFS ["d"] ("x.txt") 0 (by decide)
    ?_).trans (by decide)
  intro k hk
  constructor
  · intro habs
    exfalso
    have hmem := (pathExists_iff noVariantFS _).mp habs
    simp only [allPaths, noVariantFS, List.mem_append, List.mem_cons,
      List.not_mem_nil, or_false] at hmem
    rcases hmem with hmem | hmem
    · simp at hmem
    · have hv : variantName (pyStem ("x.txt")) (pySuffix ("x.txt")) k
          = "x.txt" := by
        simpa using hmem
      have hlen := congrArg (fun s => s.data.length) hv
      simp only [variantName, String.data_append, List.length_append] at hlen
      have e1 : (pyStem ("x.txt")).data.length = 1 := by decide
      have e2 : (" (" : String).data.length = 2 := by decide
      have e3 : ((")") : String).data.length = 1 := by decide
      have e4 : (pySuffix ("x.txt")).data.length = 4 := by decide
      have e5 : ("x.txt" : String).data.length = 5 := by decide
      rw [e1, e2, e3, e4, e5] at hlen
      omega
  · intro hk0
    exfalso
    omega

end Organizer
